import Mathlib

/-!
Verification of the SahaAI response-normalization and financial-scoring core.

The Python sources `src/main.py` and `src/cfo_api.py` are shallowly embedded
below: numeric inputs become rationals, the scoring functions become pure Lean
functions mirroring the Python statement by statement, and the goal planner's
fallible division becomes an `Except` value.
-/

namespace SahaAI

/-- Python `round(x, 2)`: rounding to two decimal places.  Mathlib's `round`
rounds halves up while Python rounds halves to even; no fact proved in this
file evaluates `round2` at a tie, so the choice is immaterial here. -/
def round2 (x : ℚ) : ℚ := ((round (x * 100) : ℤ) : ℚ) / 100

/-- Result record of `analyze_financial_data` (the dict built in
`src/main.py`, lines 65-70). -/
structure AnalysisResult where
  savings : ℚ
  dti_percent : ℚ
  risk_level : String
  advice : String
  deriving DecidableEq

/-- Policy A scorer, `analyze_financial_data` from `src/main.py` lines 46-70,
transcribed statement by statement. -/
def analyze_financial_data (income expenses emi : ℚ) : AnalysisResult :=
  let savings := income - expenses - emi
  let dti := if income > 0 then emi / income else 0
  let risk :=
    if dti > 0.4 then "High Risk"
    else if dti > 0.25 then "Moderate Risk"
    else "Low Risk"
  let advice :=
    if savings < 0 then "You are overspending. Reduce expenses immediately."
    else if savings < 0.2 * income then "Increase savings. Try to save at least 20% of income."
    else "Your financial health looks stable."
  { savings := savings
    dti_percent := round2 (dti * 100)
    risk_level := risk
    advice := advice }

/-- Result record of `calculate_financial_score` (the dict built in
`src/cfo_api.py`, lines 55-59). -/
structure ScoreResult where
  score : ℤ
  savings : ℚ
  dti_percent : ℚ
  deriving DecidableEq

/-- Policy B scorer, `calculate_financial_score` from `src/cfo_api.py` lines
32-59, transcribed statement by statement.  Python's `savings / income if
income else 0` tests the truthiness of `income`, i.e. `income ≠ 0`. -/
def calculate_financial_score (income expenses emi : ℚ) : ScoreResult :=
  let savings := income - expenses - emi
  let savings_ratio := if income ≠ 0 then savings / income else 0
  let dti := if income ≠ 0 then emi / income else 0
  let score : ℤ := 100
  let score := if savings_ratio < 0.1 then score - 30
               else if savings_ratio < 0.2 then score - 15
               else score
  let score := if dti > 0.4 then score - 25
               else if dti > 0.3 then score - 15
               else score
  let score := if savings < 0 then score - 20 else score
  let score := max score 0
  { score := score
    savings := savings
    dti_percent := round2 (dti * 100) }

/-- Spec §4.2 Policy B, savings-ratio rule: "deduct 30 if `savings_ratio <
0.10`; else deduct 15 if `savings_ratio < 0.20`; else deduct 0". -/
def savings_ratio_deduction (r : ℚ) : ℤ :=
  if r < 0.1 then 30 else if r < 0.2 then 15 else 0

/-- Spec §4.2 Policy B, DTI rule: "deduct 25 if `dti > 0.40`; else deduct 15
if `dti > 0.30`; else 0". -/
def dti_deduction (d : ℚ) : ℤ :=
  if d > 0.4 then 25 else if d > 0.3 then 15 else 0

/-- Spec §4.2 Policy B, flat rule: "deduct an additional flat 20 if
`savings < 0`". -/
def negative_savings_deduction (s : ℚ) : ℤ :=
  if s < 0 then 20 else 0

/-- Spec §4.2 Policy A risk tiers, as worded in the spec: "`dti > 0.4` → High;
`0.25 < dti ≤ 0.4` → Moderate; else → Low". -/
def risk_spec (dti : ℚ) : String :=
  if dti > 0.4 then "High Risk"
  else if 0.25 < dti ∧ dti ≤ 0.4 then "Moderate Risk"
  else "Low Risk"

/-- Values appearing in the JSON dict returned by the `/goal-planner`
endpoint: numbers or strings. -/
inductive PyVal where
  | num : ℚ → PyVal
  | str : String → PyVal
  deriving DecidableEq

/-- The one runtime exception relevant to the goal planner: Python's
`ZeroDivisionError`, raised by `/` when the divisor is zero. -/
inductive PyError where
  | zeroDivisionError : PyError
  deriving DecidableEq

/-- Python's `/` on a float numerator and an integer divisor: raises
`ZeroDivisionError` when the divisor is zero, otherwise true division. -/
def pyDiv (a : ℚ) (b : ℤ) : Except PyError ℚ :=
  if b = 0 then .error .zeroDivisionError else .ok (a / (b : ℚ))

/-- `goal_planner` from `src/cfo_api.py` lines 214-246, transcribed statement
by statement.  The Gemini call between the division and the return is the
excluded I/O shim; its response text is passed in as `analysisText` and is
returned verbatim under the `"analysis"` key.  The returned dict is modelled
as an association list in the order Python builds it. -/
def goal_planner (income expenses emi goal_amount : ℚ) (years : ℤ)
    (analysisText : String) : Except PyError (List (String × PyVal)) :=
  let savings := income - expenses - emi
  let months : ℤ := years * 12
  if savings ≤ 0 then
    .ok [("error", .str "No savings available for planning.")]
  else
    match pyDiv goal_amount months with
    | .error e => .error e
    | .ok required_monthly_saving =>
        .ok [("required_monthly_saving", .num required_monthly_saving),
             ("analysis", .str analysisText)]

/-! ### The Extractor — `_parse_json_from_text` (src/main.py, lines 30-36)

The Python function strips the raw model text, runs
`re.search(r"```(?:json)?\s*([\s\S]*?)\s*```", text)`, keeps the stripped
first capture group when the pattern matches, and feeds the result to
`json.loads`.  Text is modelled as `List Char`.  The pieces of the Python
standard library the function leans on (`str.strip`, this one regex search,
`json.loads`, and — for the round-trip claim — `json.dumps`) are modelled
below.  JSON documents are modelled by the mutual inductive `Json`, with
integer numerals and printable-ASCII strings (the fragment the surrounding
endpoints exchange); `json.dumps` escapes `"` and `\` and emits the default
`", "` / `": "` separators. -/

/-- The backtick character (U+0060), written via its code point. -/
def backquote : Char := Char.ofNat 96

/-- The pattern `` ``` `` searched for by the fence regex. -/
def tripleBacktick : List Char := [backquote, backquote, backquote]

/-- The optional `json` tag after the opening fence. -/
def jsonTag : List Char := ['j', 's', 'o', 'n']

/-- ASCII whitespace recognized by Python's `str.strip` and by `\s`. -/
def isSpace (c : Char) : Bool :=
  c = ' ' || c = '\t' || c = '\n' || c = '\r' || c = '\x0b' || c = '\x0c'

/-- Whitespace skipped between tokens by `json.loads`. -/
def isJsonWs (c : Char) : Bool :=
  c = ' ' || c = '\t' || c = '\n' || c = '\r'

/-- Python `str.lstrip()`. -/
def lstrip (cs : List Char) : List Char := cs.dropWhile isSpace

/-- Python `str.rstrip()`. -/
def rstrip (cs : List Char) : List Char := (cs.reverse.dropWhile isSpace).reverse

/-- Python `str.strip()`. -/
def strip (cs : List Char) : List Char := rstrip (lstrip cs)

/-- Index of the first occurrence of `pat` in `cs`, if any (the leftmost
position at which `pat` is a prefix of the remaining text). -/
def firstOccur (pat : List Char) : List Char → Option Nat
  | [] => if pat.isPrefixOf [] then some 0 else none
  | c :: cs =>
      if pat.isPrefixOf (c :: cs) then some 0
      else (firstOccur pat cs).map (· + 1)

/-- Model of `re.search(r"```(?:json)?\s*([\s\S]*?)\s*```", cs)`, returning
`group(1)` on a match.  Derivation from the regex semantics: a match exists
iff the first `` ``` `` occurrence is followed by another one (a failure at
the leftmost `` ``` `` cannot be rescued by a later start, because every
later candidate window is contained in the first one's search space); the
greedy `(?:json)?` consumes a `json` tag when present (the tag contains no
backtick, so consuming it never loses the closing fence); the greedy `\s*`
consumes the maximal whitespace run (whitespace never overlaps a backtick);
the lazy group then ends at the earliest point from which a whitespace run
reaches the next `` ``` ``, i.e. `group(1)` is the text before the next
occurrence with its trailing whitespace removed. -/
def reFenceSearch (cs : List Char) : Option (List Char) :=
  match firstOccur tripleBacktick cs with
  | none => none
  | some p =>
      let t := cs.drop (p + 3)
      let t1 := if jsonTag.isPrefixOf t then t.drop 4 else t
      let t2 := t1.dropWhile isSpace
      match firstOccur tripleBacktick t2 with
      | none => none
      | some q => some (rstrip (t2.take q))

/-! JSON documents: the mutual inductive keeps every recursive occurrence a
direct subterm, so all functions below are structurally recursive (and hence
reduce inside `decide`/`rfl`). -/
mutual
inductive Json where
  | null : Json
  | bool : Bool → Json
  | num : Int → Json
  | str : List Char → Json
  | arr : JsonList → Json
  | obj : JsonMembers → Json
inductive JsonList where
  | nil : JsonList
  | cons : Json → JsonList → JsonList
inductive JsonMembers where
  | nil : JsonMembers
  | cons : List Char → Json → JsonMembers → JsonMembers
end

/-- The digit character for `n < 10`. -/
def digitChar (n : Nat) : Char := Char.ofNat (48 + n)

/-- Numeric value of a digit character. -/
def digitVal (c : Char) : Nat := c.toNat - 48

/-- Decimal digits of `n`, least significant first; `fuel ≥ n + 1` always
suffices. -/
def natToRevDigits : Nat → Nat → List Char
  | 0, _ => []
  | fuel + 1, n =>
      if n < 10 then [digitChar n]
      else digitChar (n % 10) :: natToRevDigits fuel (n / 10)

/-- Decimal digits of `n`, most significant first. -/
def natDigits (n : Nat) : List Char := (natToRevDigits (n + 1) n).reverse

/-- Decimal rendering of an integer, as `repr`/`json.dumps` print it. -/
def intDigits (n : Int) : List Char :=
  if n < 0 then '-' :: natDigits n.natAbs else natDigits n.natAbs

/-- `json.dumps` string escaping: `"` and `\` are escaped; printable ASCII
passes through verbatim. -/
def escapeChar (c : Char) : List Char :=
  if c = '"' then ['\\', '"'] else if c = '\\' then ['\\', '\\'] else [c]

/-- Escape every character of a string body. -/
def escapeChars : List Char → List Char
  | [] => []
  | c :: cs => escapeChar c ++ escapeChars cs

/-- A JSON string literal: quoted, escaped body. -/
def jsonQuote (s : List Char) : List Char := '"' :: (escapeChars s ++ ['"'])

/-! Model of `json.dumps` with the default separators `", "` and `": "`. -/
mutual
def json_dumps : Json → List Char
  | .num n => intDigits n
  | .str s => jsonQuote s
  | .arr xs => '[' :: (dumpsElems xs ++ [']'])
  | .obj ms => '\x7b' :: (dumpsMembers ms ++ ['\x7d'])
  | .null => 'n' :: 'u' :: 'l' :: 'l' :: []
  | .bool true => 't' :: 'r' :: 'u' :: 'e' :: []
  | .bool false => 'f' :: 'a' :: 'l' :: 's' :: 'e' :: []
def dumpsElems : JsonList → List Char
  | .nil => []
  | .cons x xs => json_dumps x ++ dumpsTail xs
def dumpsTail : JsonList → List Char
  | .nil => []
  | .cons x xs => ',' :: ' ' :: (json_dumps x ++ dumpsTail xs)
def dumpsMembers : JsonMembers → List Char
  | .nil => []
  | .cons k v ms => jsonQuote k ++ [':', ' '] ++ json_dumps v ++ dumpsMembersTail ms
def dumpsMembersTail : JsonMembers → List Char
  | .nil => []
  | .cons k v ms =>
      ',' :: ' ' :: (jsonQuote k ++ [':', ' '] ++ json_dumps v ++ dumpsMembersTail ms)
end

/-- Printable ASCII: the characters `json.dumps` passes through literally
(everything else would be `\uXXXX`-escaped by `ensure_ascii`, which the
model omits). -/
def goodChar (c : Char) : Bool := 32 ≤ c.toNat && c.toNat < 127

/-! `goodJson`: all string values and keys of the document are printable
ASCII. -/
mutual
def goodJson : Json → Bool
  | .null => true
  | .bool _ => true
  | .num _ => true
  | .str s => s.all goodChar
  | .arr xs => goodList xs
  | .obj ms => goodMembers ms
def goodList : JsonList → Bool
  | .nil => true
  | .cons x xs => goodJson x && goodList xs
def goodMembers : JsonMembers → Bool
  | .nil => true
  | .cons k v ms => k.all goodChar && goodJson v && goodMembers ms
end

/-- Whitespace skipping inside `json.loads`. -/
def skipWs (cs : List Char) : List Char := cs.dropWhile isJsonWs

/-- Does the text start with a decimal digit? -/
def headIsDigit : List Char → Bool
  | [] => false
  | c :: _ => c.isDigit

/-- Does the text start with the character `c`? -/
def headIs (c : Char) : List Char → Bool
  | [] => false
  | d :: _ => d == c

/-- JSON string escapes accepted by the model (`\uXXXX` is omitted: the
modelled `json.dumps` never emits it). -/
def decodeEscape : Char → Option Char
  | 'n' => some '\n'
  | 't' => some '\t'
  | 'r' => some '\r'
  | 'b' => some '\x08'
  | 'f' => some '\x0c'
  | '"' => some '"'
  | '/' => some '/'
  | '\\' => some '\\'
  | _ => none

/-- Parse a JSON string body after the opening quote, up to and including
the closing quote. -/
def parseStringBody : List Char → Option (List Char × List Char)
  | [] => none
  | c :: rest =>
      if c = '"' then some ([], rest)
      else if c = '\\' then
        match rest with
        | [] => none
        | e :: rest2 =>
            match decodeEscape e with
            | some d => (parseStringBody rest2).map (fun p => (d :: p.1, p.2))
            | none => none
      else (parseStringBody rest).map (fun p => (c :: p.1, p.2))

/-- Parse a nonempty run of decimal digits into its value. -/
def parseDigitRun (cs : List Char) : Option (Nat × List Char) :=
  let ds := cs.takeWhile Char.isDigit
  if ds.isEmpty then none
  else some (ds.foldl (fun a c => 10 * a + digitVal c) 0, cs.dropWhile Char.isDigit)

/-! Recursive-descent model of `json.loads` (values / array elements /
object members).  The fuel only bounds the recursion depth; `length + 1`
fuel always suffices. -/
mutual
def parseValue : Nat → List Char → Option (Json × List Char)
  | 0, _ => none
  | f + 1, cs =>
      let t := skipWs cs
      if headIsDigit t then
        match parseDigitRun t with
        | some (n, r) => some (.num (n : Int), r)
        | none => none
      else
        match t with
        | 'n' :: 'u' :: 'l' :: 'l' :: rest => some (.null, rest)
        | 't' :: 'r' :: 'u' :: 'e' :: rest => some (.bool true, rest)
        | 'f' :: 'a' :: 'l' :: 's' :: 'e' :: rest => some (.bool false, rest)
        | '"' :: rest => (parseStringBody rest).map (fun p => (.str p.1, p.2))
        | '-' :: rest =>
            match parseDigitRun rest with
            | some (n, r) => some (.num (-(n : Int)), r)
            | none => none
        | '[' :: rest =>
            let r1 := skipWs rest
            if headIs ']' r1 then some (.arr .nil, r1.tail)
            else (parseElems f r1).map (fun p => (.arr p.1, p.2))
        | '\x7b' :: rest =>
            let r1 := skipWs rest
            if headIs '\x7d' r1 then some (.obj .nil, r1.tail)
            else (parseMembers f r1).map (fun p => (.obj p.1, p.2))
        | _ => none
def parseElems : Nat → List Char → Option (JsonList × List Char)
  | 0, _ => none
  | f + 1, cs =>
      match parseValue f cs with
      | none => none
      | some (v, r) =>
          match skipWs r with
          | ',' :: r2 => (parseElems f r2).map (fun p => (JsonList.cons v p.1, p.2))
          | ']' :: r2 => some (JsonList.cons v .nil, r2)
          | _ => none
def parseMembers : Nat → List Char → Option (JsonMembers × List Char)
  | 0, _ => none
  | f + 1, cs =>
      match skipWs cs with
      | '"' :: rest =>
          match parseStringBody rest with
          | none => none
          | some (k, r) =>
              match skipWs r with
              | ':' :: r2 =>
                  match parseValue f r2 with
                  | none => none
                  | some (v, r3) =>
                      match skipWs r3 with
                      | ',' :: r4 =>
                          (parseMembers f r4).map
                            (fun p => (JsonMembers.cons k v p.1, p.2))
                      | '\x7d' :: r4 => some (JsonMembers.cons k v .nil, r4)
                      | _ => none
              | _ => none
      | _ => none
end

/-- `json.loads`: parse one value, allow trailing whitespace only. -/
def json_loads (cs : List Char) : Option Json :=
  match parseValue (cs.length + 1) cs with
  | some (v, rest) => if (skipWs rest).isEmpty then some v else none
  | none => none

/-- The spec's Extractor error taxonomy (§7).  The code has no distinct path
for empty input: `json.loads` raises the same `JSONDecodeError` (modelled as
`malformedJSON`, carrying the offending text) there as on garbage, so the
`empty` constructor is never produced by `_parse_json_from_text`. -/
inductive ExtractionError where
  | empty : ExtractionError
  | malformedJSON : List Char → ExtractionError

/-- `_parse_json_from_text` from `src/main.py` lines 30-36, transcribed
statement by statement: strip, take the stripped interior of the first fence
when the regex matches, then `json.loads`. -/
def _parse_json_from_text (cs : List Char) : Except ExtractionError Json :=
  let t := strip cs
  let t :=
    match reFenceSearch t with
    | some inner => strip inner
    | none => t
  match json_loads t with
  | some v => .ok v
  | none => .error (.malformedJSON t)

/-- The spec's fenced wrapping `f"```json\n{json_dumps(X)}\n```"`. -/
def fenceWrap (d : List Char) : List Char :=
  backquote :: backquote :: backquote :: 'j' :: 's' :: 'o' :: 'n' :: '\n' ::
    (d ++ '\n' :: backquote :: backquote :: backquote :: [])

/-! `fneed`: fuel needed by `parseValue` on the output of `json_dumps`. -/
mutual
def fneed : Json → Nat
  | .null => 1
  | .bool _ => 1
  | .num _ => 1
  | .str _ => 1
  | .arr xs => 1 + fneedElems xs
  | .obj ms => 1 + fneedMembers ms
def fneedElems : JsonList → Nat
  | .nil => 0
  | .cons x xs => 1 + max (fneed x) (fneedElems xs)
def fneedMembers : JsonMembers → Nat
  | .nil => 0
  | .cons _ v ms => 1 + max (fneed v) (fneedMembers ms)
end

/-- A concrete payload whose serialization contains a triple backtick:
`{"a": "```"}`. -/
def backtickPayload : Json :=
  .obj (.cons ['a'] (.str tripleBacktick) .nil)

/-! ### Digit rendering: auxiliary value function -/

/-- Value of a digit list, least significant digit first. -/
def valRev : List Char → Nat
  | [] => 0
  | c :: cs => digitVal c + 10 * valRev cs

/-! ### Helper lemmas: characters and whitespace -/

theorem skipWs_cons_of_neg (c : Char) (l : List Char) (h : isJsonWs c = false) :
    skipWs (c :: l) = c :: l := by
  simp [skipWs, List.dropWhile_cons, h]

theorem skipWs_append_ws : ∀ sp l : List Char,
    (∀ c ∈ sp, isJsonWs c = true) → skipWs (sp ++ l) = skipWs l
  | [], _, _ => rfl
  | c :: sp, l, h => by
      have hc : isJsonWs c = true := h c (List.mem_cons_self c sp)
      simp only [List.cons_append, skipWs, List.dropWhile_cons, hc, if_true]
      exact skipWs_append_ws sp l fun d hd => h d (List.mem_cons_of_mem c hd)

theorem digitChar_isDigit (m : Nat) (h : m < 10) : (digitChar m).isDigit = true := by
  interval_cases m <;> decide

theorem digitVal_digitChar (m : Nat) (h : m < 10) : digitVal (digitChar m) = m := by
  interval_cases m <;> decide

theorem isJsonWs_of_isDigit (c : Char) (h : c.isDigit = true) : isJsonWs c = false := by
  have h1 : c ≠ ' ' := by rintro rfl; exact absurd h (by decide)
  have h2 : c ≠ '\t' := by rintro rfl; exact absurd h (by decide)
  have h3 : c ≠ '\n' := by rintro rfl; exact absurd h (by decide)
  have h4 : c ≠ '\r' := by rintro rfl; exact absurd h (by decide)
  simp [isJsonWs, h1, h2, h3, h4]

theorem isSpace_of_isDigit (c : Char) (h : c.isDigit = true) : isSpace c = false := by
  have h1 : c ≠ ' ' := by rintro rfl; exact absurd h (by decide)
  have h2 : c ≠ '\t' := by rintro rfl; exact absurd h (by decide)
  have h3 : c ≠ '\n' := by rintro rfl; exact absurd h (by decide)
  have h4 : c ≠ '\r' := by rintro rfl; exact absurd h (by decide)
  have h5 : c ≠ '\x0b' := by rintro rfl; exact absurd h (by decide)
  have h6 : c ≠ '\x0c' := by rintro rfl; exact absurd h (by decide)
  simp [isSpace, h1, h2, h3, h4, h5, h6]

theorem beq_rbrack_of_isDigit (c : Char) (h : c.isDigit = true) : (c == ']') = false := by
  have h1 : c ≠ ']' := by rintro rfl; exact absurd h (by decide)
  simpa using h1

/-! ### Helper lemmas: decimal digits -/

theorem natToRevDigits_ne_nil (fuel n : Nat) : natToRevDigits (fuel + 1) n ≠ [] := by
  simp only [natToRevDigits]
  split <;> simp

theorem natToRevDigits_all_digits (n : Nat) : ∀ fuel, n + 1 ≤ fuel →
    ∀ c ∈ natToRevDigits fuel n, c.isDigit = true := by
  induction n using Nat.strong_induction_on with
  | _ n ih =>
    intro fuel hf c hc
    match fuel, hf with
    | fuel + 1, hf =>
      simp only [natToRevDigits] at hc
      split at hc
      · next h10 =>
          simp only [List.mem_singleton] at hc
          exact hc ▸ digitChar_isDigit n h10
      · next h10 =>
          rcases List.mem_cons.mp hc with h | h
          · exact h ▸ digitChar_isDigit _ (Nat.mod_lt _ (by norm_num))
          · have hdiv : n / 10 < n := Nat.div_lt_self (by omega) (by norm_num)
            exact ih (n / 10) hdiv fuel (by omega) c h

theorem valRev_natToRevDigits (n : Nat) : ∀ fuel, n + 1 ≤ fuel →
    valRev (natToRevDigits fuel n) = n := by
  induction n using Nat.strong_induction_on with
  | _ n ih =>
    intro fuel hf
    match fuel, hf with
    | fuel + 1, hf =>
      simp only [natToRevDigits]
      split
      · next h10 => simp [valRev, digitVal_digitChar n h10]
      · next h10 =>
          have hdiv : n / 10 < n := Nat.div_lt_self (by omega) (by norm_num)
          rw [valRev, digitVal_digitChar _ (Nat.mod_lt _ (by norm_num)),
            ih (n / 10) hdiv fuel (by omega)]
          omega

theorem foldl_reverse_val (rds : List Char) : ∀ a : Nat,
    List.foldl (fun x c => 10 * x + digitVal c) a rds.reverse =
      a * 10 ^ rds.length + valRev rds := by
  induction rds with
  | nil => intro a; simp [valRev]
  | cons c cs ih =>
      intro a
      rw [List.reverse_cons, List.foldl_append, ih a]
      simp only [List.foldl_cons, List.foldl_nil, valRev, List.length_cons]
      ring

theorem natDigits_foldl (n : Nat) :
    (natDigits n).foldl (fun x c => 10 * x + digitVal c) 0 = n := by
  unfold natDigits
  rw [foldl_reverse_val]
  simp [valRev_natToRevDigits n (n + 1) le_rfl]

theorem natDigits_ne_nil (n : Nat) : natDigits n ≠ [] := by
  unfold natDigits
  simpa using natToRevDigits_ne_nil n n

theorem natDigits_all_digits (n : Nat) : ∀ c ∈ natDigits n, c.isDigit = true := by
  intro c hc
  rw [natDigits, List.mem_reverse] at hc
  exact natToRevDigits_all_digits n (n + 1) le_rfl c hc

/-! ### Helper lemmas: takeWhile / dropWhile over digit runs -/

theorem takeWhile_all_append (p : Char → Bool) : ∀ l1 l2 : List Char,
    (∀ c ∈ l1, p c = true) →
    List.takeWhile p (l1 ++ l2) = l1 ++ List.takeWhile p l2
  | [], _, _ => rfl
  | c :: l1, l2, h => by
      have hc : p c = true := h c (List.mem_cons_self c l1)
      simp only [List.cons_append, List.takeWhile_cons, hc, if_true]
      exact congrArg (c :: ·)
        (takeWhile_all_append p l1 l2 fun d hd => h d (List.mem_cons_of_mem c hd))

theorem dropWhile_all_append (p : Char → Bool) : ∀ l1 l2 : List Char,
    (∀ c ∈ l1, p c = true) →
    List.dropWhile p (l1 ++ l2) = List.dropWhile p l2
  | [], _, _ => rfl
  | c :: l1, l2, h => by
      have hc : p c = true := h c (List.mem_cons_self c l1)
      simp only [List.cons_append, List.dropWhile_cons, hc, if_true]
      exact dropWhile_all_append p l1 l2 fun d hd => h d (List.mem_cons_of_mem c hd)

theorem takeWhile_digit_eq_nil (l : List Char) (h : headIsDigit l = false) :
    List.takeWhile Char.isDigit l = [] := by
  cases l with
  | nil => rfl
  | cons c l => simp only [headIsDigit] at h; simp [List.takeWhile_cons, h]

theorem dropWhile_digit_eq_self (l : List Char) (h : headIsDigit l = false) :
    List.dropWhile Char.isDigit l = l := by
  cases l with
  | nil => rfl
  | cons c l => simp only [headIsDigit] at h; simp [List.dropWhile_cons, h]

theorem parseDigitRun_digits (n : Nat) (rest : List Char)
    (hrest : headIsDigit rest = false) :
    parseDigitRun (natDigits n ++ rest) = some (n, rest) := by
  unfold parseDigitRun
  rw [takeWhile_all_append _ _ _ (natDigits_all_digits n),
    dropWhile_all_append _ _ _ (natDigits_all_digits n),
    takeWhile_digit_eq_nil rest hrest, dropWhile_digit_eq_self rest hrest,
    List.append_nil]
  rw [if_neg (by simp [List.isEmpty_iff, natDigits_ne_nil n])]
  rw [natDigits_foldl]

/-! ### Helper lemmas: string bodies -/

theorem parseStringBody_escape : ∀ (s rest : List Char),
    parseStringBody (escapeChars s ++ ('"' :: rest)) = some (s, rest)
  | [], rest => by
      rw [show escapeChars [] ++ ('"' :: rest) = '"' :: rest from rfl,
        parseStringBody.eq_def]
      simp
  | c :: cs, rest => by
      by_cases h1 : c = '"'
      · subst h1
        rw [show escapeChars ('"' :: cs) ++ ('"' :: rest) =
              '\\' :: '"' :: (escapeChars cs ++ ('"' :: rest)) by
            simp [escapeChars, escapeChar]]
        rw [parseStringBody.eq_def]
        simp [decodeEscape, parseStringBody_escape cs rest]
      · by_cases h2 : c = '\\'
        · subst h2
          rw [show escapeChars ('\\' :: cs) ++ ('"' :: rest) =
                '\\' :: '\\' :: (escapeChars cs ++ ('"' :: rest)) by
              simp [escapeChars, escapeChar]]
          rw [parseStringBody.eq_def]
          simp [decodeEscape, parseStringBody_escape cs rest]
        · rw [show escapeChars (c :: cs) ++ ('"' :: rest) =
                c :: (escapeChars cs ++ ('"' :: rest)) by
              simp [escapeChars, escapeChar, h1, h2]]
          rw [parseStringBody.eq_def]
          simp only [if_neg h1, if_neg h2]
          simp [parseStringBody_escape cs rest]

/-! ### Helper lemmas: the first and last characters of a serialized value -/

theorem json_dumps_head (X : Json) :
    ∃ c l, json_dumps X = c :: l ∧ isJsonWs c = false ∧ isSpace c = false ∧
      (c == ']') = false := by
  cases X with
  | null => exact ⟨'n', _, rfl, by decide, by decide, by decide⟩
  | bool b =>
      cases b with
      | false => exact ⟨'f', _, rfl, by decide, by decide, by decide⟩
      | true => exact ⟨'t', _, rfl, by decide, by decide, by decide⟩
  | num n =>
      rw [show json_dumps (.num n) = intDigits n from rfl]
      unfold intDigits
      split
      · exact ⟨'-', _, rfl, by decide, by decide, by decide⟩
      · obtain ⟨c, l, hcl⟩ : ∃ c l, natDigits n.natAbs = c :: l := by
          cases h : natDigits n.natAbs with
          | nil => exact absurd h (natDigits_ne_nil _)
          | cons c l => exact ⟨c, l, rfl⟩
        have hd : c.isDigit = true :=
          natDigits_all_digits _ c (by rw [hcl]; exact List.mem_cons_self c l)
        exact ⟨c, l, hcl, isJsonWs_of_isDigit c hd, isSpace_of_isDigit c hd,
          beq_rbrack_of_isDigit c hd⟩
  | str s => exact ⟨'"', _, rfl, by decide, by decide, by decide⟩
  | arr xs => exact ⟨'[', _, rfl, by decide, by decide, by decide⟩
  | obj ms => exact ⟨'\x7b', _, rfl, by decide, by decide, by decide⟩

theorem json_dumps_rev_head (X : Json) :
    ∃ c l, (json_dumps X).reverse = c :: l ∧ isSpace c = false := by
  cases X with
  | null => exact ⟨'l', ['l', 'u', 'n'], by decide, by decide⟩
  | bool b =>
      cases b with
      | false => exact ⟨'e', ['s', 'l', 'a', 'f'], by decide, by decide⟩
      | true => exact ⟨'e', ['u', 'r', 't'], by decide, by decide⟩
  | num n =>
      rw [show json_dumps (.num n) = intDigits n from rfl]
      have hbase : ∀ m : Nat, ∃ c l, (natDigits m).reverse = c :: l ∧ isSpace c = false := by
        intro m
        rw [natDigits, List.reverse_reverse]
        obtain ⟨c, l, hcl⟩ : ∃ c l, natToRevDigits (m + 1) m = c :: l := by
          cases h : natToRevDigits (m + 1) m with
          | nil => exact absurd h (natToRevDigits_ne_nil m m)
          | cons c l => exact ⟨c, l, rfl⟩
        have hd : c.isDigit = true :=
          natToRevDigits_all_digits m (m + 1) le_rfl c
            (by rw [hcl]; exact List.mem_cons_self c l)
        exact ⟨c, l, hcl, isSpace_of_isDigit c hd⟩
      unfold intDigits
      split
      · obtain ⟨c, l, hcl, hc⟩ := hbase n.natAbs
        exact ⟨c, l ++ ['-'], by rw [List.reverse_cons, hcl, List.cons_append], hc⟩
      · exact hbase n.natAbs
  | str s =>
      refine ⟨'"', (escapeChars s).reverse ++ ['"'], ?_, by decide⟩
      rw [show json_dumps (.str s) = '"' :: (escapeChars s ++ ['"']) from rfl]
      simp
  | arr xs =>
      refine ⟨']', (dumpsElems xs).reverse ++ ['['], ?_, by decide⟩
      rw [show json_dumps (.arr xs) = '[' :: (dumpsElems xs ++ [']']) from rfl]
      simp
  | obj ms =>
      refine ⟨'\x7d', (dumpsMembers ms).reverse ++ ['\x7b'], ?_, by decide⟩
      rw [show json_dumps (.obj ms) = '\x7b' :: (dumpsMembers ms ++ ['\x7d']) from rfl]
      simp

theorem lstrip_cons_of_neg (c : Char) (l : List Char) (h : isSpace c = false) :
    lstrip (c :: l) = c :: l := by
  simp [lstrip, List.dropWhile_cons, h]

theorem rstrip_of_rev_head (d : List Char) (c : Char) (l : List Char)
    (hrev : d.reverse = c :: l) (hc : isSpace c = false) : rstrip d = d := by
  rw [rstrip, hrev]
  simp only [List.dropWhile_cons, hc, Bool.false_eq_true, if_false]
  rw [← hrev, List.reverse_reverse]

theorem strip_json_dumps (X : Json) : strip (json_dumps X) = json_dumps X := by
  obtain ⟨c, l, hcl, _, hsp, _⟩ := json_dumps_head X
  obtain ⟨c', l', hcl', hsp'⟩ := json_dumps_rev_head X
  rw [strip, hcl, lstrip_cons_of_neg c l hsp, ← hcl]
  exact rstrip_of_rev_head _ c' l' hcl' hsp'

/-- `skipWs` does not touch a serialized value. -/
theorem skipWs_dumps_append (X : Json) (l : List Char) :
    skipWs (json_dumps X ++ l) = json_dumps X ++ l := by
  obtain ⟨c, cl, hcl, hws, _, _⟩ := json_dumps_head X
  rw [hcl, List.cons_append, skipWs_cons_of_neg c _ hws]

/-- A serialized value never starts with `]`. -/
theorem headIs_rbrack_dumps (X : Json) (l : List Char) :
    headIs ']' (json_dumps X ++ l) = false := by
  obtain ⟨c, cl, hcl, _, _, hrb⟩ := json_dumps_head X
  rw [hcl, List.cons_append]
  simpa [headIs] using hrb

/-! ### Helper lemmas about `round2` -/

theorem round2_nonneg (x : ℚ) (hx : 0 ≤ x) : 0 ≤ round2 x := by
  unfold round2
  have h : (0 : ℤ) ≤ round (x * 100) := by
    rw [round_eq]
    exact Int.floor_nonneg.2 (by linarith)
  have h2 : (0 : ℚ) ≤ ((round (x * 100) : ℤ) : ℚ) := by exact_mod_cast h
  linarith

theorem round2_zero : round2 0 = 0 := by
  simp [round2]

/-! ### Theorems for the claims -/

/-- Claim C1: for every input, the Policy B scorer starts from 100, applies
exactly one savings-ratio deduction (30 / 15 / 0, first match wins), exactly
one DTI deduction (25 / 15 / 0), additionally deducts a flat 20 when
`savings < 0` cumulatively with the prior two, and the resulting score lies
in `[0, 100]`. -/
theorem C1_policyB_score_structure (income expenses emi : ℚ) :
    (calculate_financial_score income expenses emi).score =
      max (100
        - savings_ratio_deduction
            (if income ≠ 0 then (income - expenses - emi) / income else 0)
        - dti_deduction (if income ≠ 0 then emi / income else 0)
        - negative_savings_deduction (income - expenses - emi)) 0 ∧
    0 ≤ (calculate_financial_score income expenses emi).score ∧
    (calculate_financial_score income expenses emi).score ≤ 100 := by
  simp only [calculate_financial_score, savings_ratio_deduction, dti_deduction,
    negative_savings_deduction]
  split_ifs <;> simp_all

/-- Claim C2: for income > 0, the Policy A scorer assigns risk per the spec's
tiers: `dti > 0.4` → High; `0.25 < dti ≤ 0.4` → Moderate; else Low, where
`dti = emi/income`. -/
theorem C2_policyA_risk_tiers (income expenses emi : ℚ) (h : 0 < income) :
    (analyze_financial_data income expenses emi).risk_level =
      risk_spec (emi / income) := by
  simp only [analyze_financial_data, risk_spec, if_pos h]
  by_cases h1 : emi / income > 0.4
  · rw [if_pos h1, if_pos h1]
  · rw [if_neg h1, if_neg h1]
    by_cases h2 : emi / income > 0.25
    · rw [if_pos h2, if_pos ⟨h2, by linarith⟩]
    · rw [if_neg h2, if_neg (fun hc => h2 hc.1)]

/-- Witness for C2 at income=50000, expenses=30000, emi=5000 (dti = 0.1,
risk Low). -/
theorem C2_policyA_risk_tiers_witness :
    (0 : ℚ) < 50000 ∧
    (analyze_financial_data 50000 30000 5000).risk_level =
      risk_spec (5000 / 50000) :=
  ⟨by norm_num, C2_policyA_risk_tiers 50000 30000 5000 (by norm_num)⟩

/-- Claim C3: the Policy A scorer selects advice in this order, first match
winning: `savings < 0` → overspending warning; else `savings < 0.2 × income`
→ increase-savings prompt; else the stable message, with
`savings = income − expenses − emi`. -/
theorem C3_policyA_advice_order (income expenses emi : ℚ) :
    ((income - expenses - emi < 0 →
        (analyze_financial_data income expenses emi).advice =
          "You are overspending. Reduce expenses immediately.") ∧
     (¬ income - expenses - emi < 0 →
        income - expenses - emi < 0.2 * income →
        (analyze_financial_data income expenses emi).advice =
          "Increase savings. Try to save at least 20% of income.") ∧
     (¬ income - expenses - emi < 0 →
        ¬ income - expenses - emi < 0.2 * income →
        (analyze_financial_data income expenses emi).advice =
          "Your financial health looks stable.")) := by
  refine ⟨fun h1 => by simp [analyze_financial_data, h1],
    fun h1 h2 => by simp [analyze_financial_data, h1, h2],
    fun h1 h2 => by simp [analyze_financial_data, h1, h2]⟩

/-- Witness for C3 at income=40000, expenses=35000, emi=10000
(savings = −5000 < 0, first branch). -/
theorem C3_policyA_advice_order_witness :
    (40000 : ℚ) - 35000 - 10000 < 0 ∧
    (analyze_financial_data 40000 35000 10000).advice =
      "You are overspending. Reduce expenses immediately." :=
  ⟨by norm_num, (C3_policyA_advice_order 40000 35000 10000).1 (by norm_num)⟩

/-- Counterexample to claim C5: on income = −1 ≤ 0, emi = 1, the Policy B
scorer divides by the negative income and reports dti_percent = −100, which
is negative and nonzero. -/
theorem C5_counterexample :
    (-1 : ℚ) ≤ 0 ∧ (calculate_financial_score (-1) 0 1).dti_percent < 0 := by
  refine ⟨by norm_num, ?_⟩
  simp only [calculate_financial_score]
  norm_num [round2, round_eq]

/-- Claim C5 amended: for emi ≥ 0 the Policy A scorer's dti_percent is
nonnegative and equals 0 whenever income ≤ 0; the Policy B scorer satisfies
the same provided additionally income ≥ 0 (for negative income it divides by
the negative income and can report a negative dti_percent). -/
theorem C5_amended_dti_percent (income expenses emi : ℚ) (hemi : 0 ≤ emi) :
    (0 ≤ (analyze_financial_data income expenses emi).dti_percent ∧
      (income ≤ 0 → (analyze_financial_data income expenses emi).dti_percent = 0)) ∧
    (0 ≤ income →
      (0 ≤ (calculate_financial_score income expenses emi).dti_percent ∧
        (income ≤ 0 → (calculate_financial_score income expenses emi).dti_percent = 0))) := by
  refine ⟨⟨?_, fun hle => ?_⟩, fun hinc => ⟨?_, fun hle => ?_⟩⟩
  · simp only [analyze_financial_data]
    split_ifs with h
    · exact round2_nonneg _ (by positivity)
    · simpa using round2_nonneg 0 le_rfl
  · simp only [analyze_financial_data]
    rw [if_neg (not_lt.mpr hle)]
    simpa using round2_zero
  · simp only [calculate_financial_score]
    split_ifs with h
    · have hpos : 0 < income := lt_of_le_of_ne hinc (Ne.symm h)
      exact round2_nonneg _ (by positivity)
    · simpa using round2_nonneg 0 le_rfl
  · have h0 : income = 0 := le_antisymm hle hinc
    simp only [calculate_financial_score, h0]
    simpa using round2_zero

/-- Witness for C5 (amended) at income=0, expenses=1, emi=2: both scorers
report dti_percent = 0. -/
theorem C5_amended_dti_percent_witness :
    (0 : ℚ) ≤ 2 ∧
    (analyze_financial_data 0 1 2).dti_percent = 0 ∧
    (calculate_financial_score 0 1 2).dti_percent = 0 :=
  ⟨by norm_num,
   (C5_amended_dti_percent 0 1 2 (by norm_num)).1.2 (by norm_num),
   ((C5_amended_dti_percent 0 1 2 (by norm_num)).2 (by norm_num)).2 (by norm_num)⟩

/-- Counterexample to claim C6: on income=40000, expenses=35000, emi=10000
the Policy A risk is not "Moderate Risk" (dti = 0.25 fails the strict
`dti > 0.25` test, so the code reports "Low Risk"). -/
theorem C6_counterexample :
    (analyze_financial_data 40000 35000 10000).risk_level ≠ "Moderate Risk" := by
  simp only [analyze_financial_data]
  norm_num
  decide

/-- Claim C6 amended: on income=40000, expenses=35000, emi=10000, savings is
−5000, Policy A returns the overspending advice with risk Low (dti = 0.25 is
not > 0.25), and Policy B deducts 30 + 0 + 20, yielding score 50. -/
theorem C6_amended_scenario :
    analyze_financial_data 40000 35000 10000 =
      { savings := -5000, dti_percent := 25, risk_level := "Low Risk",
        advice := "You are overspending. Reduce expenses immediately." } ∧
    calculate_financial_score 40000 35000 10000 =
      { score := 50, savings := -5000, dti_percent := 25 } := by
  constructor
  · simp only [analyze_financial_data]
    norm_num [AnalysisResult.mk.injEq, round2, round_eq]
  · simp only [calculate_financial_score]
    norm_num [ScoreResult.mk.injEq, round2, round_eq]

/-- Claim C7: whenever monthly savings = income − expenses − emi ≤ 0, the
goal planner returns the structured `"error"` dict (a normal value), raising
no exception; the division `goal_amount / months` is never reached, for any
`years` — including `years = 0`. -/
theorem C7_goal_planner_no_savings (income expenses emi goal_amount : ℚ)
    (years : ℤ) (t : String) (h : income - expenses - emi ≤ 0) :
    goal_planner income expenses emi goal_amount years t =
      .ok [("error", .str "No savings available for planning.")] := by
  simp [goal_planner, h]

/-- Witness for C7 at income=40000, expenses=35000, emi=10000, years=0:
the error dict is returned and no division-by-zero occurs. -/
theorem C7_goal_planner_no_savings_witness :
    (40000 : ℚ) - 35000 - 10000 ≤ 0 ∧
    goal_planner 40000 35000 10000 100 0 "" =
      .ok [("error", .str "No savings available for planning.")] :=
  ⟨by norm_num, C7_goal_planner_no_savings 40000 35000 10000 100 0 "" (by norm_num)⟩

/-- Counterexample to claim C8: on the scenario income=60000, expenses=40000,
emi=5000, goal=600000, years=5 the goal planner's dict holds only
`required_monthly_saving` (= 10000) and the LLM `analysis` text; it contains
no computed `achievable` field. -/
theorem C8_counterexample :
    goal_planner 60000 40000 5000 600000 5 "llm" =
      .ok [("required_monthly_saving", .num 10000), ("analysis", .str "llm")] ∧
    List.lookup "achievable"
      [("required_monthly_saving", PyVal.num 10000),
       ("analysis", PyVal.str "llm")] = none := by
  constructor
  · simp only [goal_planner, pyDiv]
    norm_num
  · simp [List.lookup]

/-- Claim C8 amended: for years ≥ 1 and positive monthly savings the goal
planner returns `required_monthly_saving = goal_amount / (years × 12)`
together with the LLM analysis text; achievability is not computed by the
code (it is delegated to the LLM prompt). -/
theorem C8_amended_goal_planner (income expenses emi goal_amount : ℚ)
    (years : ℤ) (t : String) (hy : 1 ≤ years)
    (hs : 0 < income - expenses - emi) :
    goal_planner income expenses emi goal_amount years t =
      .ok [("required_monthly_saving", .num (goal_amount / ((years : ℚ) * 12))),
           ("analysis", .str t)] := by
  simp only [goal_planner, pyDiv]
  rw [if_neg (not_le.mpr hs), if_neg (by omega : ¬ years * 12 = 0)]
  norm_num

/-- Witness for C8 (amended) at the scenario input: required monthly saving
is 600000 / 60 = 10000. -/
theorem C8_amended_goal_planner_witness :
    (1 : ℤ) ≤ 5 ∧ (0 : ℚ) < 60000 - 40000 - 5000 ∧
    goal_planner 60000 40000 5000 600000 5 "" =
      .ok [("required_monthly_saving", .num 10000), ("analysis", .str "")] := by
  refine ⟨by norm_num, by norm_num, ?_⟩
  have h := C8_amended_goal_planner 60000 40000 5000 600000 5 "" (by norm_num) (by norm_num)
  rw [h]
  norm_num

/-- Claim C10: the division `goal_amount / months` is unguarded: with
years = 0 and positive savings the goal planner raises ZeroDivisionError;
with years ≥ 1 no exception is ever raised. -/
theorem C10_unguarded_division :
    goal_planner 1 0 0 1 0 "" = .error .zeroDivisionError ∧
    ∀ (income expenses emi goal_amount : ℚ) (years : ℤ) (t : String),
      1 ≤ years → ∀ e, goal_planner income expenses emi goal_amount years t ≠ .error e := by
  constructor
  · simp only [goal_planner, pyDiv]
    norm_num
  · intro income expenses emi goal_amount years t hy e
    simp only [goal_planner, pyDiv]
    split_ifs with h1 h2
    · simp
    · omega
    · simp

/-- Witness for C10: the concrete raise at years = 0, and no exception at
the years = 3 input. -/
theorem C10_unguarded_division_witness :
    goal_planner 1 0 0 1 0 "" = .error .zeroDivisionError ∧
    goal_planner 2 1 0 5 3 "" ≠ .error .zeroDivisionError :=
  ⟨C10_unguarded_division.1,
   C10_unguarded_division.2 2 1 0 5 3 "" (by norm_num) .zeroDivisionError⟩

/-! ### The Extractor round trip (claims C4 and C9) -/

set_option maxHeartbeats 1000000

theorem headIsDigit_digits_append (m : Nat) (l : List Char) :
    headIsDigit (natDigits m ++ l) = true := by
  obtain ⟨c, cl, hcl⟩ : ∃ c cl, natDigits m = c :: cl := by
    cases h : natDigits m with
    | nil => exact absurd h (natDigits_ne_nil m)
    | cons c cl => exact ⟨c, cl, rfl⟩
  have hd : c.isDigit = true :=
    natDigits_all_digits m c (by rw [hcl]; exact List.mem_cons_self c cl)
  rw [hcl, List.cons_append]
  simpa [headIsDigit] using hd

theorem fneed_pos (X : Json) : 1 ≤ fneed X := by
  cases X <;> simp [fneed]

theorem parseValue_dumps_null (g : Nat) (sp rest : List Char)
    (hsp : ∀ c ∈ sp, isJsonWs c = true) :
    parseValue (g + 1) (sp ++ (json_dumps Json.null ++ rest)) = some (Json.null, rest) := by
  have hsk : skipWs (sp ++ (json_dumps Json.null ++ rest)) = json_dumps Json.null ++ rest := by
    rw [skipWs_append_ws sp _ hsp, skipWs_dumps_append]
  rw [parseValue.eq_def]
  simp only [hsk]
  simp [json_dumps, headIsDigit]

theorem parseValue_dumps_bool (g : Nat) (b : Bool) (sp rest : List Char)
    (hsp : ∀ c ∈ sp, isJsonWs c = true) :
    parseValue (g + 1) (sp ++ (json_dumps (Json.bool b) ++ rest)) =
      some (Json.bool b, rest) := by
  have hsk : skipWs (sp ++ (json_dumps (Json.bool b) ++ rest)) =
      json_dumps (Json.bool b) ++ rest := by
    rw [skipWs_append_ws sp _ hsp, skipWs_dumps_append]
  rw [parseValue.eq_def]
  simp only [hsk]
  cases b <;> simp [json_dumps, headIsDigit]

theorem parseValue_dumps_str (g : Nat) (s : List Char) (sp rest : List Char)
    (hsp : ∀ c ∈ sp, isJsonWs c = true) :
    parseValue (g + 1) (sp ++ (json_dumps (Json.str s) ++ rest)) = some (Json.str s, rest) := by
  have hsk : skipWs (sp ++ (json_dumps (Json.str s) ++ rest)) = json_dumps (Json.str s) ++ rest := by
    rw [skipWs_append_ws sp _ hsp, skipWs_dumps_append]
  rw [parseValue.eq_def]
  simp only [hsk]
  rw [show json_dumps (Json.str s) ++ rest =
        '"' :: (escapeChars s ++ ('"' :: rest)) by
      simp [json_dumps, jsonQuote]]
  simp [headIsDigit, parseStringBody_escape s rest]

theorem parseValue_dumps_num (g : Nat) (n : Int) (sp rest : List Char)
    (hsp : ∀ c ∈ sp, isJsonWs c = true) (hrest : headIsDigit rest = false) :
    parseValue (g + 1) (sp ++ (json_dumps (Json.num n) ++ rest)) = some (Json.num n, rest) := by
  have hsk : skipWs (sp ++ (json_dumps (Json.num n) ++ rest)) = json_dumps (Json.num n) ++ rest := by
    rw [skipWs_append_ws sp _ hsp, skipWs_dumps_append]
  rw [parseValue.eq_def]
  simp only [hsk]
  rw [show json_dumps (Json.num n) = intDigits n from rfl]
  unfold intDigits
  split
  · next hn =>
      rw [List.cons_append]
      rw [if_neg (by simp [headIsDigit])]
      simp only [parseDigitRun_digits _ rest hrest]
      have hcast : (-(n.natAbs : Int)) = n := by omega
      rw [hcast]
  · next hn =>
      rw [if_pos (headIsDigit_digits_append _ _)]
      simp only [parseDigitRun_digits _ rest hrest]
      have hcast : ((n.natAbs : Int)) = n := by omega
      rw [hcast]

theorem headIsDigit_dumpsTail (xs : JsonList) (rest : List Char) :
    headIsDigit (dumpsTail xs ++ (']' :: rest)) = false := by
  cases xs <;> simp [dumpsTail, headIsDigit]

theorem headIsDigit_dumpsMembersTail (ms : JsonMembers) (rest : List Char) :
    headIsDigit (dumpsMembersTail ms ++ ('\x7d' :: rest)) = false := by
  cases ms <;> simp [dumpsMembersTail, headIsDigit]

mutual
theorem parseValue_dumps : ∀ (X : Json) (f : Nat) (sp rest : List Char),
    (∀ c ∈ sp, isJsonWs c = true) → fneed X ≤ f → headIsDigit rest = false →
    parseValue f (sp ++ (json_dumps X ++ rest)) = some (X, rest)
  | .null, f, sp, rest => fun hsp hf _ => by
      obtain ⟨g, rfl⟩ : ∃ g, f = g + 1 := ⟨f - 1, by have := fneed_pos Json.null; omega⟩
      exact parseValue_dumps_null g sp rest hsp
  | .bool b, f, sp, rest => fun hsp hf _ => by
      obtain ⟨g, rfl⟩ : ∃ g, f = g + 1 := ⟨f - 1, by have := fneed_pos (Json.bool b); omega⟩
      exact parseValue_dumps_bool g b sp rest hsp
  | .num n, f, sp, rest => fun hsp hf hrest => by
      obtain ⟨g, rfl⟩ : ∃ g, f = g + 1 := ⟨f - 1, by have := fneed_pos (Json.num n); omega⟩
      exact parseValue_dumps_num g n sp rest hsp hrest
  | .str s, f, sp, rest => fun hsp hf _ => by
      obtain ⟨g, rfl⟩ : ∃ g, f = g + 1 := ⟨f - 1, by have := fneed_pos (Json.str s); omega⟩
      exact parseValue_dumps_str g s sp rest hsp
  | .arr xs, f, sp, rest => fun hsp hf _ => by
      obtain ⟨g, rfl⟩ : ∃ g, f = g + 1 := ⟨f - 1, by have := fneed_pos (Json.arr xs); omega⟩
      have hsk : skipWs (sp ++ (json_dumps (Json.arr xs) ++ rest)) =
          json_dumps (Json.arr xs) ++ rest := by
        rw [skipWs_append_ws sp _ hsp, skipWs_dumps_append]
      rw [parseValue.eq_def]
      simp only [hsk]
      cases xs with
      | nil =>
          rw [show json_dumps (Json.arr .nil) ++ rest = '[' :: (']' :: rest) by
            simp [json_dumps, dumpsElems]]
          simp only [headIsDigit]
          simp only [show ('['.isDigit) = false from rfl, Bool.false_eq_true, if_false]
          rw [show skipWs (']' :: rest) = ']' :: rest from skipWs_cons_of_neg _ _ (by decide)]
          simp [headIs]
      | cons x xs' =>
          rw [show json_dumps (Json.arr (.cons x xs')) ++ rest =
                '[' :: (json_dumps x ++ (dumpsTail xs' ++ (']' :: rest))) by
              simp [json_dumps, dumpsElems]]
          rw [if_neg (by simp [headIsDigit])]
          have hr1 := skipWs_dumps_append x (dumpsTail xs' ++ (']' :: rest))
          have hrb := headIs_rbrack_dumps x (dumpsTail xs' ++ (']' :: rest))
          simp only [hr1, hrb]
          have hpe := parseElems_dumps x xs' g [] rest
            (by intro c hc; cases hc)
            (by have : fneed (Json.arr (.cons x xs')) = 1 + fneedElems (.cons x xs') := rfl
                omega)
          simp only [List.nil_append] at hpe
          rw [show json_dumps x ++ (dumpsTail xs' ++ (']' :: rest)) =
                (json_dumps x ++ dumpsTail xs') ++ (']' :: rest) by simp]
          rw [show (json_dumps x ++ dumpsTail xs') = dumpsElems (.cons x xs') from rfl]
          simp [hpe]
  | .obj ms, f, sp, rest => fun hsp hf _ => by
      obtain ⟨g, rfl⟩ : ∃ g, f = g + 1 := ⟨f - 1, by have := fneed_pos (Json.obj ms); omega⟩
      have hsk : skipWs (sp ++ (json_dumps (Json.obj ms) ++ rest)) =
          json_dumps (Json.obj ms) ++ rest := by
        rw [skipWs_append_ws sp _ hsp, skipWs_dumps_append]
      rw [parseValue.eq_def]
      simp only [hsk]
      cases ms with
      | nil =>
          rw [show json_dumps (Json.obj .nil) ++ rest = '\x7b' :: ('\x7d' :: rest) by
            simp [json_dumps, dumpsMembers]]
          simp only [headIsDigit]
          simp only [show ('\x7b'.isDigit) = false from rfl, Bool.false_eq_true, if_false]
          rw [show skipWs ('\x7d' :: rest) = '\x7d' :: rest from skipWs_cons_of_neg _ _ (by decide)]
          simp [headIs]
      | cons k v ms' =>
          rw [show json_dumps (Json.obj (.cons k v ms')) ++ rest =
                '\x7b' :: (dumpsMembers (.cons k v ms') ++ ('\x7d' :: rest)) by
              simp [json_dumps]]
          rw [if_neg (by simp [headIsDigit])]
          have hquote : dumpsMembers (JsonMembers.cons k v ms') ++ ('\x7d' :: rest) =
              '"' :: ((escapeChars k ++ ['"']) ++
                ([':', ' '] ++ (json_dumps v ++ (dumpsMembersTail ms' ++ ('\x7d' :: rest))))) := by
            simp [dumpsMembers, jsonQuote]
          have hr1 : skipWs (dumpsMembers (JsonMembers.cons k v ms') ++ ('\x7d' :: rest)) =
              dumpsMembers (JsonMembers.cons k v ms') ++ ('\x7d' :: rest) := by
            rw [hquote]
            exact skipWs_cons_of_neg _ _ (by decide)
          have hrb : headIs '\x7d'
              (dumpsMembers (JsonMembers.cons k v ms') ++ ('\x7d' :: rest)) = false := by
            rw [hquote]; simp [headIs]
          have hpm := parseMembers_dumps k v ms' g [] rest
            (by intro c hc; cases hc)
            (by have : fneed (Json.obj (.cons k v ms')) = 1 + fneedMembers (.cons k v ms') := rfl
                omega)
          simp only [List.nil_append] at hpm
          simp only [hr1, hrb]
          simp [hpm]
termination_by X _ _ _ => sizeOf X
decreasing_by all_goals (simp_wf; try omega)
theorem parseElems_dumps : ∀ (x : Json) (xs : JsonList) (f : Nat) (sp rest : List Char),
    (∀ c ∈ sp, isJsonWs c = true) → fneedElems (JsonList.cons x xs) ≤ f →
    parseElems f (sp ++ (dumpsElems (JsonList.cons x xs) ++ (']' :: rest))) =
      some (JsonList.cons x xs, rest)
  | x, xs, f, sp, rest => fun hsp hf => by
      obtain ⟨g, rfl⟩ : ∃ g, f = g + 1 := ⟨f - 1, by
        have : fneedElems (JsonList.cons x xs) = 1 + max (fneed x) (fneedElems xs) := rfl
        omega⟩
      rw [parseElems.eq_def]
      have hshape : sp ++ (dumpsElems (JsonList.cons x xs) ++ (']' :: rest)) =
          sp ++ (json_dumps x ++ (dumpsTail xs ++ (']' :: rest))) := by
        simp [dumpsElems]
      rw [hshape]
      have hpv := parseValue_dumps x g sp (dumpsTail xs ++ (']' :: rest)) hsp
        (by have : fneedElems (JsonList.cons x xs) = 1 + max (fneed x) (fneedElems xs) := rfl
            omega)
        (headIsDigit_dumpsTail xs rest)
      simp only [hpv]
      cases xs with
      | nil =>
          rw [show dumpsTail JsonList.nil ++ (']' :: rest) = ']' :: rest by simp [dumpsTail]]
          rw [show skipWs (']' :: rest) = ']' :: rest from skipWs_cons_of_neg _ _ (by decide)]
          simp
      | cons y ys =>
          rw [show dumpsTail (JsonList.cons y ys) ++ (']' :: rest) =
                ',' :: (' ' :: (json_dumps y ++ (dumpsTail ys ++ (']' :: rest)))) by
              simp [dumpsTail]]
          rw [skipWs_cons_of_neg _ _ (by decide)]
          have hpe := parseElems_dumps y ys g [' '] rest (by decide)
            (by have : fneedElems (JsonList.cons x (JsonList.cons y ys)) =
                  1 + max (fneed x) (fneedElems (JsonList.cons y ys)) := rfl
                omega)
          rw [show ([' '] : List Char) ++ (dumpsElems (JsonList.cons y ys) ++ (']' :: rest)) =
                ' ' :: (json_dumps y ++ (dumpsTail ys ++ (']' :: rest))) by
              simp [dumpsElems]] at hpe
          simp [hpe]
termination_by x xs _ _ _ => 1 + sizeOf x + sizeOf xs
decreasing_by all_goals (simp_wf; try omega)
theorem parseMembers_dumps : ∀ (k : List Char) (v : Json) (ms : JsonMembers) (f : Nat)
    (sp rest : List Char),
    (∀ c ∈ sp, isJsonWs c = true) → fneedMembers (JsonMembers.cons k v ms) ≤ f →
    parseMembers f (sp ++ (dumpsMembers (JsonMembers.cons k v ms) ++ ('\x7d' :: rest))) =
      some (JsonMembers.cons k v ms, rest)
  | k, v, ms, f, sp, rest => fun hsp hf => by
      obtain ⟨g, rfl⟩ : ∃ g, f = g + 1 := ⟨f - 1, by
        have : fneedMembers (JsonMembers.cons k v ms) = 1 + max (fneed v) (fneedMembers ms) := rfl
        omega⟩
      rw [parseMembers.eq_def]
      have hsk : skipWs (sp ++ (dumpsMembers (JsonMembers.cons k v ms) ++ ('\x7d' :: rest))) =
          '"' :: (escapeChars k ++ ('"' :: (':' :: (' ' ::
            (json_dumps v ++ (dumpsMembersTail ms ++ ('\x7d' :: rest))))))) := by
        rw [skipWs_append_ws sp _ hsp]
        rw [show dumpsMembers (JsonMembers.cons k v ms) ++ ('\x7d' :: rest) =
              '"' :: (escapeChars k ++ ('"' :: (':' :: (' ' ::
                (json_dumps v ++ (dumpsMembersTail ms ++ ('\x7d' :: rest))))))) by
            simp [dumpsMembers, jsonQuote]]
        rw [skipWs_cons_of_neg _ _ (by decide)]
      simp only [hsk]
      rw [parseStringBody_escape k _]
      have hcol : skipWs (':' :: (' ' :: (json_dumps v ++ (dumpsMembersTail ms ++ ('\x7d' :: rest))))) =
          ':' :: (' ' :: (json_dumps v ++ (dumpsMembersTail ms ++ ('\x7d' :: rest)))) :=
        skipWs_cons_of_neg _ _ (by decide)
      simp only [hcol]
      have hpv := parseValue_dumps v g [' '] (dumpsMembersTail ms ++ ('\x7d' :: rest)) (by decide)
        (by have : fneedMembers (JsonMembers.cons k v ms) = 1 + max (fneed v) (fneedMembers ms) := rfl
            omega)
        (headIsDigit_dumpsMembersTail ms rest)
      rw [show ([' '] : List Char) ++ (json_dumps v ++ (dumpsMembersTail ms ++ ('\x7d' :: rest))) =
            ' ' :: (json_dumps v ++ (dumpsMembersTail ms ++ ('\x7d' :: rest))) by simp] at hpv
      simp only [hpv]
      cases ms with
      | nil =>
          rw [show dumpsMembersTail JsonMembers.nil ++ ('\x7d' :: rest) = '\x7d' :: rest by
            simp [dumpsMembersTail]]
          rw [show skipWs ('\x7d' :: rest) = '\x7d' :: rest from skipWs_cons_of_neg _ _ (by decide)]
          simp
      | cons k2 v2 ms2 =>
          rw [show dumpsMembersTail (JsonMembers.cons k2 v2 ms2) ++ ('\x7d' :: rest) =
                ',' :: (' ' :: (dumpsMembers (JsonMembers.cons k2 v2 ms2) ++ ('\x7d' :: rest))) by
              simp [dumpsMembersTail, dumpsMembers]]
          rw [skipWs_cons_of_neg _ _ (by decide)]
          have hpm := parseMembers_dumps k2 v2 ms2 g [' '] rest (by decide)
            (by have : fneedMembers (JsonMembers.cons k v (JsonMembers.cons k2 v2 ms2)) =
                  1 + max (fneed v) (fneedMembers (JsonMembers.cons k2 v2 ms2)) := rfl
                omega)
          rw [show ([' '] : List Char) ++
                (dumpsMembers (JsonMembers.cons k2 v2 ms2) ++ ('\x7d' :: rest)) =
                ' ' :: (dumpsMembers (JsonMembers.cons k2 v2 ms2) ++ ('\x7d' :: rest)) by simp] at hpm
          simp [hpm]
termination_by k v ms _ _ _ => 1 + sizeOf v + sizeOf ms
decreasing_by all_goals (simp_wf; try omega)
end


mutual
theorem fneed_le_dumps : ∀ X : Json, fneed X ≤ (json_dumps X).length
  | .null => by simp [fneed, json_dumps]
  | .bool b => by cases b <;> simp [fneed, json_dumps]
  | .num n => by
      obtain ⟨c, l, hcl, _, _, _⟩ := json_dumps_head (Json.num n)
      simp [fneed, hcl]
  | .str s => by simp [fneed, json_dumps, jsonQuote]
  | .arr xs => by
      have h := fneedElems_le_dumps xs
      simp only [fneed, List.length_cons, List.length_append,
        show json_dumps (Json.arr xs) = '[' :: (dumpsElems xs ++ [']']) from rfl,
        List.length_singleton]
      omega
  | .obj ms => by
      have h := fneedMembers_le_dumps ms
      simp only [fneed, List.length_cons, List.length_append,
        show json_dumps (Json.obj ms) = '\x7b' :: (dumpsMembers ms ++ ['\x7d']) from rfl,
        List.length_singleton]
      omega
theorem fneedElems_le_dumps : ∀ xs : JsonList, fneedElems xs ≤ (dumpsElems xs).length + 1
  | .nil => by simp [fneedElems, dumpsElems]
  | .cons x xs => by
      have h1 := fneed_le_dumps x
      cases xs with
      | nil =>
          simp only [fneedElems, dumpsElems, dumpsTail, List.length_append, List.length_nil]
          omega
      | cons y ys =>
          have h2 := fneedElems_le_dumps (JsonList.cons y ys)
          simp only [fneedElems, dumpsElems, dumpsTail, List.length_append,
            List.length_cons] at h2 ⊢
          omega
theorem fneedMembers_le_dumps : ∀ ms : JsonMembers, fneedMembers ms ≤ (dumpsMembers ms).length + 1
  | .nil => by simp [fneedMembers, dumpsMembers]
  | .cons k v ms => by
      have h1 := fneed_le_dumps v
      cases ms with
      | nil =>
          simp only [fneedMembers, dumpsMembers, dumpsMembersTail, List.length_append,
            List.length_nil, List.length_cons]
          omega
      | cons k2 v2 ms2 =>
          have h2 := fneedMembers_le_dumps (JsonMembers.cons k2 v2 ms2)
          simp only [fneedMembers, dumpsMembers, dumpsMembersTail, List.length_append,
            List.length_cons] at h2 ⊢
          omega
end

theorem json_loads_dumps (X : Json) : json_loads (json_dumps X) = some X := by
  unfold json_loads
  have h := parseValue_dumps X ((json_dumps X).length + 1) [] []
    (by intro c hc; cases hc)
    (le_trans (fneed_le_dumps X) (Nat.le_succ _))
    (by simp [headIsDigit])
  simp only [List.nil_append, List.append_nil] at h
  rw [h]
  simp [skipWs]

theorem tbt_isPrefixOf_cons_extend (c b : Char) (dP l : List Char)
    (hb : (backquote == b) = false)
    (h : tripleBacktick.isPrefixOf (c :: dP) = false) :
    tripleBacktick.isPrefixOf (c :: (dP ++ b :: l)) = false := by
  cases dP with
  | nil => simp [tripleBacktick, List.isPrefixOf, hb]
  | cons c2 dQ =>
      cases dQ with
      | nil => simp [tripleBacktick, List.isPrefixOf, hb]
      | cons c3 dR =>
          simp only [tripleBacktick, List.isPrefixOf, List.cons_append] at h ⊢
          simpa using h

theorem firstOccur_tbt_append : ∀ (d : List Char) (b : Char) (l : List Char),
    (backquote == b) = false → firstOccur tripleBacktick d = none →
    firstOccur tripleBacktick (d ++ b :: l) =
      (firstOccur tripleBacktick l).map (· + (d.length + 1))
  | [], b, l, hb, _ => by
      simp only [List.nil_append, firstOccur]
      rw [if_neg (by simp [tripleBacktick, List.isPrefixOf, hb])]
      simp
  | c :: d, b, l, hb, hd => by
      rw [show firstOccur tripleBacktick (c :: d) =
            (if tripleBacktick.isPrefixOf (c :: d) = true then some 0
             else (firstOccur tripleBacktick d).map (· + 1)) from rfl] at hd
      by_cases hpre : tripleBacktick.isPrefixOf (c :: d) = true
      · rw [if_pos hpre] at hd; exact absurd hd (by simp)
      · rw [if_neg hpre] at hd
        have hrec : firstOccur tripleBacktick d = none := by
          cases h : firstOccur tripleBacktick d with
          | none => rfl
          | some i => rw [h] at hd; exact absurd hd (by simp)
        rw [List.cons_append,
          show firstOccur tripleBacktick (c :: (d ++ b :: l)) =
            (if tripleBacktick.isPrefixOf (c :: (d ++ b :: l)) = true then some 0
             else (firstOccur tripleBacktick (d ++ b :: l)).map (· + 1)) from rfl]
        rw [if_neg (by
          rw [tbt_isPrefixOf_cons_extend c b d l hb (Bool.eq_false_iff.mpr hpre)]
          simp)]
        rw [firstOccur_tbt_append d b l hb hrec]
        cases firstOccur tripleBacktick l with
        | none => simp
        | some i =>
            simp only [List.length_cons]
            simp
            omega


theorem strip_fenceWrap (d : List Char) : strip (fenceWrap d) = fenceWrap d := by
  unfold strip fenceWrap
  rw [lstrip_cons_of_neg _ _ (by decide)]
  apply rstrip_of_rev_head _ backquote
    (backquote :: backquote :: '\n' :: (d.reverse ++ ['\n', 'n', 'o', 's', 'j', backquote, backquote, backquote]))
    ?_ (by decide)
  simp [List.reverse_append]

theorem reFenceSearch_fenceWrap (d : List Char) (c0 : Char) (l0 : List Char)
    (hcl : d = c0 :: l0) (hc : isSpace c0 = false)
    (c1 : Char) (l1 : List Char)
    (hcl1 : d.reverse = c1 :: l1) (hc1 : isSpace c1 = false)
    (hnb : firstOccur tripleBacktick d = none) :
    reFenceSearch (fenceWrap d) = some d := by
  unfold reFenceSearch
  rw [show firstOccur tripleBacktick (fenceWrap d) = some 0 by
    simp [fenceWrap, firstOccur, tripleBacktick, List.isPrefixOf]]
  have h1 : (fenceWrap d).drop (0 + 3) =
      'j' :: 's' :: 'o' :: 'n' :: '\n' :: (d ++ '\n' :: backquote :: backquote :: backquote :: []) := by
    simp [fenceWrap]
  have h2 : jsonTag.isPrefixOf
      ('j' :: 's' :: 'o' :: 'n' :: '\n' :: (d ++ '\n' :: backquote :: backquote :: backquote :: [])) = true := by
    simp [jsonTag, List.isPrefixOf]
  have h4 : List.dropWhile isSpace
      ('\n' :: (d ++ '\n' :: backquote :: backquote :: backquote :: [])) =
      d ++ '\n' :: backquote :: backquote :: backquote :: [] := by
    rw [List.dropWhile_cons, if_pos (by decide), hcl, List.cons_append,
      List.dropWhile_cons, if_neg (by simp [hc]), ← List.cons_append, ← hcl]
  have h5 : firstOccur tripleBacktick (d ++ '\n' :: backquote :: backquote :: backquote :: []) =
      some (d.length + 1) := by
    rw [firstOccur_tbt_append d '\n' _ (by decide) hnb]
    rw [show firstOccur tripleBacktick (backquote :: backquote :: backquote :: []) = some 0 by
      simp [firstOccur, tripleBacktick, List.isPrefixOf]]
    simp
  have h6 : (d ++ '\n' :: backquote :: backquote :: backquote :: []).take (d.length + 1) =
      d ++ ['\n'] := by
    rw [List.take_append_eq_append_take, List.take_of_length_le (by omega)]
    congr 1
    simp
  have h7 : rstrip (d ++ ['\n']) = d := by
    unfold rstrip
    rw [List.reverse_append]
    rw [show (['\n'] : List Char).reverse ++ d.reverse = '\n' :: d.reverse by simp]
    rw [List.dropWhile_cons, if_pos (by decide), hcl1, List.dropWhile_cons,
      if_neg (by simp [hc1]), ← hcl1, List.reverse_reverse]
  simp only [h1, h2, if_true, List.drop_succ_cons, List.drop_zero, h4, h5, h6, h7]


/-- Counterexample to claim C4: for the object `{"a": "```"}` (a string value
containing a triple backtick), the lazy fence regex truncates the capture at
the inner backticks, so the Extractor on the fenced serialization fails with
MalformedJSON instead of returning the object — while the bare serialization
still parses, so fenced and bare also disagree. -/
theorem C4_counterexample :
    _parse_json_from_text (fenceWrap (json_dumps backtickPayload)) ≠
      Except.ok backtickPayload ∧
    _parse_json_from_text (fenceWrap (json_dumps backtickPayload)) =
      Except.error (.malformedJSON ['\x7b', '"', 'a', '"', ':', ' ', '"']) ∧
    _parse_json_from_text (json_dumps backtickPayload) = Except.ok backtickPayload := by
  refine ⟨?_, rfl, rfl⟩
  intro h
  rw [show _parse_json_from_text (fenceWrap (json_dumps backtickPayload)) =
      Except.error (.malformedJSON ['\x7b', '"', 'a', '"', ':', ' ', '"']) from rfl] at h
  exact Except.noConfusion h

/-- Claim C4 amended: for every well-formed JSON object X whose serialization
contains no triple-backtick substring (and whose strings are printable ASCII,
the fragment the modelled `json.dumps` covers), the Extractor returns X
unchanged both on the ```json-fenced serialization and on the bare
serialization. -/
theorem C4_amended_roundtrip (X : Json) (hgood : goodJson X = true)
    (hnb : firstOccur tripleBacktick (json_dumps X) = none) :
    _parse_json_from_text (fenceWrap (json_dumps X)) = .ok X ∧
    _parse_json_from_text (json_dumps X) = .ok X := by
  obtain ⟨c0, l0, hcl, _, hsp0, _⟩ := json_dumps_head X
  obtain ⟨c1, l1, hcl1, hsp1⟩ := json_dumps_rev_head X
  constructor
  · simp only [_parse_json_from_text]
    rw [strip_fenceWrap,
      reFenceSearch_fenceWrap (json_dumps X) c0 l0 hcl hsp0 c1 l1 hcl1 hsp1 hnb]
    simp [strip_json_dumps, json_loads_dumps]
  · simp only [_parse_json_from_text]
    rw [strip_json_dumps]
    rw [show reFenceSearch (json_dumps X) = none by unfold reFenceSearch; rw [hnb]]
    simp [json_loads_dumps]

/-- Witness for C4 (amended) at X = `{"a": 1}`. -/
theorem C4_amended_roundtrip_witness :
    goodJson (Json.obj (.cons ['a'] (.num 1) .nil)) = true ∧
    firstOccur tripleBacktick (json_dumps (Json.obj (.cons ['a'] (.num 1) .nil))) = none ∧
    _parse_json_from_text (fenceWrap (json_dumps (Json.obj (.cons ['a'] (.num 1) .nil)))) =
      .ok (Json.obj (.cons ['a'] (.num 1) .nil)) ∧
    _parse_json_from_text (json_dumps (Json.obj (.cons ['a'] (.num 1) .nil))) =
      .ok (Json.obj (.cons ['a'] (.num 1) .nil)) :=
  ⟨rfl, rfl,
   (C4_amended_roundtrip (Json.obj (.cons ['a'] (.num 1) .nil)) rfl rfl).1,
   (C4_amended_roundtrip (Json.obj (.cons ['a'] (.num 1) .nil)) rfl rfl).2⟩

/-- Counterexample to claim C9: on empty input the Extractor fails with the
same JSON-decode (MalformedJSON) error as non-empty garbage, not with a
distinct Empty error. -/
theorem C9_counterexample :
    _parse_json_from_text [] = .error (.malformedJSON []) ∧
    _parse_json_from_text [] ≠ .error .empty ∧
    _parse_json_from_text ['h', 'e', 'l', 'l', 'o'] =
      .error (.malformedJSON ['h', 'e', 'l', 'l', 'o']) := by
  refine ⟨rfl, ?_, rfl⟩
  intro h
  rw [show _parse_json_from_text [] = .error (.malformedJSON []) from rfl] at h
  have h2 := Except.error.inj h
  exact ExtractionError.noConfusion h2

/-- Claim C9 amended: every input that strips to the empty string makes the
Extractor fail with the MalformedJSON error carrying the empty offending
text — the same error family `json.loads` raises on garbage; no distinct
Empty error exists in the code. -/
theorem C9_amended_empty_error (cs : List Char) (h : strip cs = []) :
    _parse_json_from_text cs = .error (.malformedJSON []) := by
  simp only [_parse_json_from_text, h]
  rfl

/-- Witness for C9 (amended) on all-whitespace input. -/
theorem C9_amended_empty_error_witness :
    strip [' ', '\n'] = [] ∧
    _parse_json_from_text [' ', '\n'] = .error (.malformedJSON []) :=
  ⟨rfl, C9_amended_empty_error [' ', '\n'] rfl⟩

end SahaAI
